import Mathlib

/-!
Verification of the rate-limiting and response-cache subsystem of
CarbonCity-Insights (src/app/redis_cache.py, src/app/utils.py,
src/app/routes/vehicle_routes.py), as a shallow embedding in Lean 4.

The Redis store is modelled as a function-valued state holding the
per-key counters and their time-to-live values, plus an availability
flag: when the store is unavailable every operation reports a
connection error, matching a raised `redis.exceptions.RedisError`.
`INCR` creates an absent key at 1 and otherwise adds one, preserving
the TTL; `EXPIRE key w` with `w > 0` sets the TTL of an existing key,
with `w ≤ 0` it deletes the key, and it is a no-op on an absent key,
matching the documented Redis semantics.
-/

/-- Response of a single Redis round trip: either a value, or the
connection error the Python client raises when the store is down. -/
inductive StoreResp (α : Type) where
  | ok (val : α)
  | connError
  deriving DecidableEq, Repr

/-- State of the expiring counter store (the Redis instance as the rate
limiter sees it): counters per key, TTL per key, availability. -/
structure Store where
  counters : String → Option Nat
  ttl : String → Option Int
  available : Bool

/-- The store with no keys, reachable and fresh. -/
def Store.empty : Store :=
  { counters := fun _ => none, ttl := fun _ => none, available := true }

/-- Redis `INCR`: atomically increment the counter at `key`, creating it
at 1 when absent; returns the post-increment value. The TTL of the key
is not touched (a freshly created key has no TTL). -/
def Store.incr (st : Store) (key : String) : StoreResp Nat × Store :=
  if st.available then
    let newVal := (st.counters key).getD 0 + 1
    (.ok newVal,
      { st with counters := fun k => if k = key then some newVal else st.counters k })
  else
    (.connError, st)

/-- Redis `EXPIRE key w`: set the TTL of an existing key (no-op when the
key is absent); a non-positive `w` deletes the key instead. -/
def Store.expire (st : Store) (key : String) (w : Int) : StoreResp Bool × Store :=
  if st.available then
    match st.counters key with
    | none => (.ok false, st)
    | some _ =>
      if w ≤ 0 then
        (.ok true,
          { st with counters := fun k => if k = key then none else st.counters k,
                    ttl := fun k => if k = key then none else st.ttl k })
      else
        (.ok true,
          { st with ttl := fun k => if k = key then some w else st.ttl k })
  else
    (.connError, st)

/-- The store's own expiry sweep: a key whose TTL elapsed is deleted. -/
def Store.expireKey (st : Store) (key : String) : Store :=
  { st with counters := fun k => if k = key then none else st.counters k,
            ttl := fun k => if k = key then none else st.ttl k }

/-- The error object FastAPI routes raise (`HTTPException`). -/
structure HTTPException where
  status_code : Nat
  detail : String
  deriving DecidableEq, Repr

/-- Outcome of one `rate_limit` call: the call returns normally
(admitted), raises the deliberate `HTTPException` (rejected), or lets a
store error propagate uncaught (the method has no try/except). -/
inductive RLOutcome where
  | allowed
  | rejected (err : HTTPException)
  | storeError
  deriving DecidableEq, Repr

/-- Counter key derivation, from
`key = f"rate_limit:{token}:{endpoint}"` (redis_cache.py line 134). -/
def rateLimitKey (token endpoint : String) : String :=
  "rate_limit:" ++ token ++ ":" ++ endpoint

/-- The fixed detail message of the 429 rejection
(redis_cache.py lines 157-158; adjacent literals concatenate). -/
def rateLimitDetail : String :=
  "You have reached the limit of requests allowed per minute. Please wait one minute and try again later."

namespace RedisCache

/-- `RedisCache.rate_limit` (redis_cache.py lines 127-167):
increment the counter at `rate_limit:{token}:{endpoint}`; when the
increment returns 1, set the key's expiry to `window`; when the
post-increment value exceeds `limit`, raise HTTPException 429 with the
fixed message; otherwise return normally. Store errors are not caught
and propagate. -/
def rate_limit (st : Store) (token : String) (limit : Int) (window : Int)
    (endpoint : String) : RLOutcome × Store :=
  let key := rateLimitKey token endpoint
  match st.incr key with
  | (.connError, st1) => (.storeError, st1)
  | (.ok current, st1) =>
    match (if current = 1 then st1.expire key window else (.ok true, st1)) with
    | (.connError, st2) => (.storeError, st2)
    | (.ok _, st2) =>
      if (current : Int) > limit then
        (.rejected ⟨429, rateLimitDetail⟩, st2)
      else
        (.allowed, st2)

end RedisCache

/-- State after `n` sequential calls to `rate_limit` with the same
arguments (the store serializes the increments, so any interleaving of
`n` concurrent calls is one such sequence). -/
def runCalls (st : Store) (token : String) (limit window : Int) (endpoint : String) :
    Nat → Store
  | 0 => st
  | n + 1 =>
    (RedisCache.rate_limit (runCalls st token limit window endpoint n)
      token limit window endpoint).2

/-- Outcome of the `i`-th call (1-based) in such a sequence. -/
def nthCall (st : Store) (token : String) (limit window : Int) (endpoint : String)
    (i : Nat) : RLOutcome :=
  (RedisCache.rate_limit (runCalls st token limit window endpoint (i - 1))
    token limit window endpoint).1

/-!
Trace model for the counter invariant: a history is a list of events,
each either a `rate_limit` call or the store's expiry of a key
(modelled as key deletion), applied from the empty store.
-/

/-- One event of a rate-limiter history. -/
inductive REvent where
  | call (token : String) (limit window : Int) (endpoint : String)
  | expiry (key : String)

/-- Effect of one event on the store. -/
def applyEvent (st : Store) : REvent → Store
  | .call t l w e => (RedisCache.rate_limit st t l w e).2
  | .expiry k => st.expireKey k

/-- Store reached after a whole history. -/
def runTrace (st : Store) : List REvent → Store
  | [] => st
  | ev :: tr => runTrace (applyEvent st ev) tr

/-- A well-formed event respects the spec precondition `window > 0`. -/
def eventWF : REvent → Bool
  | .call _ _ w _ => decide (0 < w)
  | .expiry _ => true

/-- How one event changes the number of calls for key `k` since the
counter's creation: a call for `k` adds one, expiry of `k` resets. -/
def tallyStep (k : String) (acc : Nat) : REvent → Nat
  | .call t _ _ e => if rateLimitKey t e = k then acc + 1 else acc
  | .expiry k' => if k' = k then 0 else acc

/-- Number of calls for key `k` since its counter was last created,
starting from a count of `acc`. -/
def tally (acc : Nat) (tr : List REvent) (k : String) : Nat :=
  tr.foldl (tallyStep k) acc

/-!
Value model for the response cache.  Python values flowing through
`RedisCache.set`/`get` are JSON-like trees over strings, integers,
floats (modelled by their exact rational values), booleans, `None` and
`uuid.UUID`, with lists and string-keyed dicts; `serialize_data`
(utils.py lines 21-36) rewrites `UUID` nodes to their string form.
(The Pydantic-model branch of `serialize_data` is outside this value
domain and is not modelled.)
-/

mutual

/-- A Python value as handled by the cache layer. -/
inductive PyVal where
  | vStr (s : String)
  | vInt (n : Int)
  | vFloat (q : ℚ)
  | vBool (b : Bool)
  | vNone
  | vUUID (u : Nat)
  | vList (l : PyList)
  | vDict (d : PyDict)

/-- A Python list of such values. -/
inductive PyList where
  | nil
  | cons (head : PyVal) (tail : PyList)

/-- A Python dict with string keys and such values. -/
inductive PyDict where
  | nil
  | cons (key : String) (val : PyVal) (tail : PyDict)

end

mutual

/-- A JSON document, the image of `json.dumps`/`json.loads`: like
`PyVal` but with no `UUID` nodes. -/
inductive JVal where
  | jStr (s : String)
  | jInt (n : Int)
  | jFloat (q : ℚ)
  | jBool (b : Bool)
  | jNull
  | jArr (l : JArr)
  | jObj (o : JObj)

/-- A JSON array. -/
inductive JArr where
  | nil
  | cons (head : JVal) (tail : JArr)

/-- A JSON object (ordered string-keyed fields). -/
inductive JObj where
  | nil
  | cons (key : String) (val : JVal) (tail : JObj)

end

/-- `str(uuid.UUID)`: the 32 hex digits in 8-4-4-4-12 groups.  Helper:
the low `w` hex digits of `v`, most significant first. -/
def hexDigitsAux : Nat → Nat → List Char
  | 0, _ => []
  | w + 1, v => hexDigitsAux w (v / 16) ++ [Nat.digitChar (v % 16)]

/-- Canonical string form of a UUID whose 128-bit value is `u`. -/
def uuidStr (u : Nat) : String :=
  let d := hexDigitsAux 32 u
  String.mk (d.take 8 ++ '-' ::
    ((d.drop 8).take 4 ++ '-' ::
      ((d.drop 12).take 4 ++ '-' ::
        ((d.drop 16).take 4 ++ '-' :: d.drop 20))))

mutual

/-- `serialize_data` (utils.py lines 21-36): recursively rebuild lists
and dicts, turn each `UUID` into its string form, leave everything else
unchanged. -/
def serialize_data : PyVal → PyVal
  | .vStr s => .vStr s
  | .vInt n => .vInt n
  | .vFloat q => .vFloat q
  | .vBool b => .vBool b
  | .vNone => .vNone
  | .vUUID u => .vStr (uuidStr u)
  | .vList l => .vList (serializeList l)
  | .vDict d => .vDict (serializeDict d)

/-- `serialize_data` on the items of a list. -/
def serializeList : PyList → PyList
  | .nil => .nil
  | .cons x xs => .cons (serialize_data x) (serializeList xs)

/-- `serialize_data` on the values of a dict. -/
def serializeDict : PyDict → PyDict
  | .nil => .nil
  | .cons k v xs => .cons k (serialize_data v) (serializeDict xs)

end

mutual

/-- Whether a value contains no `UUID` node anywhere. -/
def PyVal.noUUID : PyVal → Bool
  | .vStr _ => true
  | .vInt _ => true
  | .vFloat _ => true
  | .vBool _ => true
  | .vNone => true
  | .vUUID _ => false
  | .vList l => PyList.noUUID l
  | .vDict d => PyDict.noUUID d

/-- `noUUID` on a list. -/
def PyList.noUUID : PyList → Bool
  | .nil => true
  | .cons x xs => PyVal.noUUID x && PyList.noUUID xs

/-- `noUUID` on a dict. -/
def PyDict.noUUID : PyDict → Bool
  | .nil => true
  | .cons _ v xs => PyVal.noUUID v && PyDict.noUUID xs

end

mutual

/-- `json.dumps` as a map to the JSON document it writes: total on
JSON-compatible values, fails (raises `TypeError`) on a `UUID` node. -/
def toJson : PyVal → Option JVal
  | .vStr s => some (.jStr s)
  | .vInt n => some (.jInt n)
  | .vFloat q => some (.jFloat q)
  | .vBool b => some (.jBool b)
  | .vNone => some .jNull
  | .vUUID _ => none
  | .vList l =>
    match toJsonList l with
    | some js => some (.jArr js)
    | none => none
  | .vDict d =>
    match toJsonDict d with
    | some js => some (.jObj js)
    | none => none

/-- `json.dumps` on a list. -/
def toJsonList : PyList → Option JArr
  | .nil => some .nil
  | .cons x xs =>
    match toJson x, toJsonList xs with
    | some j, some js => some (.cons j js)
    | _, _ => none

/-- `json.dumps` on a dict. -/
def toJsonDict : PyDict → Option JObj
  | .nil => some .nil
  | .cons k v xs =>
    match toJson v, toJsonDict xs with
    | some j, some js => some (.cons k j js)
    | _, _ => none

end

mutual

/-- `json.loads`: the Python value a JSON document parses back to. -/
def ofJson : JVal → PyVal
  | .jStr s => .vStr s
  | .jInt n => .vInt n
  | .jFloat q => .vFloat q
  | .jBool b => .vBool b
  | .jNull => .vNone
  | .jArr l => .vList (ofJsonArr l)
  | .jObj o => .vDict (ofJsonObj o)

/-- `json.loads` on an array. -/
def ofJsonArr : JArr → PyList
  | .nil => .nil
  | .cons j js => .cons (ofJson j) (ofJsonArr js)

/-- `json.loads` on an object. -/
def ofJsonObj : JObj → PyDict
  | .nil => .nil
  | .cons k j js => .cons k (ofJson j) (ofJsonObj js)

end

/-- Python exceptions the cache layer can raise: `json.dumps` on an
unserializable value, or the Redis client's connection error. -/
inductive PyError where
  | typeError
  | connError
  deriving DecidableEq, Repr

/-- The cached-values part of the Redis store (cache keys live in their
own namespace, disjoint from the `rate_limit:` counters). -/
structure CacheStore where
  vals : String → Option JVal
  available : Bool

/-- A cache store with no entries, reachable. -/
def CacheStore.empty : CacheStore :=
  { vals := fun _ => none, available := true }

namespace RedisCache

/-- `RedisCache.set` (redis_cache.py lines 81-96): store
`json.dumps(serialize_data(value))` at `key` (with the configured
expiry, which no claim here observes).  Store errors are not caught. -/
def set (st : CacheStore) (key : String) (value : PyVal) :
    Except PyError CacheStore :=
  if st.available then
    match toJson (serialize_data value) with
    | some j => .ok { st with vals := fun k => if k = key then some j else st.vals k }
    | none => .error .typeError
  else
    .error .connError

/-- `RedisCache.get` (redis_cache.py lines 98-114): return
`json.loads(value)` for the stored string, or `None` when the key is
absent (`json.dumps` output is never the empty string, so the source's
falsiness check coincides with the absence check).  Store errors are
not caught. -/
def get (st : CacheStore) (key : String) : Except PyError (Option PyVal) :=
  if st.available then
    match st.vals key with
    | some j => .ok (some (ofJson j))
    | none => .ok none
  else
    .error .connError

end RedisCache

/-!
Decimal rendering of Python integers, used by the f-string cache key of
`get_vehicle_emissions` (vehicle_routes.py lines 366-369).
-/

/-- Little-endian decimal digits of `n` (empty for 0). -/
def natDigitsRev (n : Nat) : List Nat :=
  if h : n = 0 then [] else n % 10 :: natDigitsRev (n / 10)
termination_by n
decreasing_by exact Nat.div_lt_self (Nat.pos_of_ne_zero h) (by decide)

/-- Value of a little-endian digit list. -/
def ofDigitsRev : List Nat → Nat
  | [] => 0
  | d :: ds => d + 10 * ofDigitsRev ds

/-- `str(n)` for a non-negative Python int. -/
def pyNatStr (n : Nat) : String :=
  if n = 0 then "0" else String.mk ((natDigitsRev n).reverse.map Nat.digitChar)

/-- `str(i)` for a Python int. -/
def pyIntStr (i : Int) : String :=
  if i < 0 then "-" ++ pyNatStr i.natAbs else pyNatStr i.toNat

/-- Python `x or dflt` for an optional string: `None` and `""` are
falsy and yield the sentinel. -/
def pyOrStr (s : Option String) (dflt : String) : String :=
  match s with
  | none => dflt
  | some s => if s = "" then dflt else s

/-- Python `f"{x or dflt}"` for an optional int: `None` and `0` are
falsy and yield the sentinel. -/
def pyOrIntStr (y : Option Int) (dflt : String) : String :=
  match y with
  | none => dflt
  | some y => if y = 0 then dflt else pyIntStr y

/-- The cache key of `get_vehicle_emissions`
(vehicle_routes.py lines 366-369):
`f"vehicle_emissions_{vehicle_make_name or 'all'}_{year or 'all'}_{cursor or 'start'}_{limit}"`. -/
def vehicleEmissionsCacheKey (vehicle_make_name : Option String) (year : Option Int)
    (cursor : Option String) (limit : Int) : String :=
  "vehicle_emissions_" ++ pyOrStr vehicle_make_name "all" ++ "_" ++
    pyOrIntStr year "all" ++ "_" ++ pyOrStr cursor "start" ++ "_" ++ pyIntStr limit

/-- A make filter that cannot be mistaken for the `all` sentinel or for
a segment boundary: present values are non-empty, differ from the
sentinel, and contain no underscore. -/
def goodMake : Option String → Prop
  | none => True
  | some s => s ≠ "" ∧ s ≠ "all" ∧ '_' ∉ s.data

/-- A year filter that is truthy in Python and renders as plain digits:
present values are positive. -/
def goodYear : Option Int → Prop
  | none => True
  | some y => 0 < y

/-- A cursor that cannot be mistaken for the `start` sentinel or for a
segment boundary. -/
def goodCursor : Option String → Prop
  | none => True
  | some s => s ≠ "" ∧ s ≠ "start" ∧ '_' ∉ s.data

/-- `set(k, v)` followed immediately by `get(k)`: the cache round trip
of the spec, with any exception of `set` propagating. -/
def cacheRoundtrip (st : CacheStore) (key : String) (value : PyVal) :
    Except PyError (Option PyVal) :=
  match RedisCache.set st key value with
  | .ok st' => RedisCache.get st' key
  | .error err => .error err

/-- An unreachable counter store (Redis down). -/
def downStore : Store :=
  { counters := fun _ => none, ttl := fun _ => none, available := false }

/-- An unreachable cache store (Redis down). -/
def downCache : CacheStore :=
  { vals := fun _ => none, available := false }

/-!
Helper lemmas: pointwise behaviour of one `rate_limit` call on an
available store, the sequential-call and trace invariants, injectivity
of the decimal rendering, and the separator-splitting lemma behind the
key-injectivity results.
-/

theorem rl_outcome (st : Store) (t : String) (l w : Int) (e : String)
    (hav : st.available = true) :
    (RedisCache.rate_limit st t l w e).1
      = if ((st.counters (rateLimitKey t e)).getD 0 + 1 : Int) > l
          then .rejected ⟨429, rateLimitDetail⟩ else .allowed := by
  unfold RedisCache.rate_limit Store.incr Store.expire
  simp only [hav, if_true]
  by_cases h0 : (st.counters (rateLimitKey t e)).getD 0 = 0
  · by_cases hw0 : w ≤ 0 <;> simp [h0, hw0] <;> split <;> simp
  · simp [h0] ; split <;> simp

theorem rl_available (st : Store) (t : String) (l w : Int) (e : String)
    (hav : st.available = true) :
    (RedisCache.rate_limit st t l w e).2.available = true := by
  unfold RedisCache.rate_limit Store.incr Store.expire
  simp only [hav, if_true]
  by_cases h0 : (st.counters (rateLimitKey t e)).getD 0 = 0
  · by_cases hw0 : w ≤ 0 <;> simp [h0, hw0] <;> split <;> simp
  · simp [h0] ; split <;> simp

theorem rl_counters_self (st : Store) (t : String) (l w : Int) (e : String)
    (hav : st.available = true) (hw : 0 < w) :
    (RedisCache.rate_limit st t l w e).2.counters (rateLimitKey t e)
      = some ((st.counters (rateLimitKey t e)).getD 0 + 1) := by
  unfold RedisCache.rate_limit Store.incr Store.expire
  simp only [hav, if_true]
  have hw0 : ¬ w ≤ 0 := by omega
  by_cases h0 : (st.counters (rateLimitKey t e)).getD 0 = 0
  · simp [h0, hw0] ; split <;> simp [h0]
  · simp [h0] ; split <;> simp

theorem rl_counters_other (st : Store) (t : String) (l w : Int) (e : String)
    (hav : st.available = true) (k : String) (hk : k ≠ rateLimitKey t e) :
    (RedisCache.rate_limit st t l w e).2.counters k = st.counters k := by
  unfold RedisCache.rate_limit Store.incr Store.expire
  simp only [hav, if_true]
  by_cases h0 : (st.counters (rateLimitKey t e)).getD 0 = 0
  · by_cases hw0 : w ≤ 0 <;> simp [h0, hw0, hk] <;> split <;> simp [hk]
  · simp [h0, hk] ; split <;> simp [hk]

theorem rl_ttl_self (st : Store) (t : String) (l w : Int) (e : String)
    (hav : st.available = true) (hw : 0 < w) :
    (RedisCache.rate_limit st t l w e).2.ttl (rateLimitKey t e)
      = if (st.counters (rateLimitKey t e)).getD 0 = 0 then some w
        else st.ttl (rateLimitKey t e) := by
  unfold RedisCache.rate_limit Store.incr Store.expire
  simp only [hav, if_true]
  have hw0 : ¬ w ≤ 0 := by omega
  by_cases h0 : (st.counters (rateLimitKey t e)).getD 0 = 0
  · simp [h0, hw0] ; split <;> simp
  · simp [h0] ; split <;> simp

theorem rl_ttl_other (st : Store) (t : String) (l w : Int) (e : String)
    (hav : st.available = true) (k : String) (hk : k ≠ rateLimitKey t e) :
    (RedisCache.rate_limit st t l w e).2.ttl k = st.ttl k := by
  unfold RedisCache.rate_limit Store.incr Store.expire
  simp only [hav, if_true]
  by_cases h0 : (st.counters (rateLimitKey t e)).getD 0 = 0
  · by_cases hw0 : w ≤ 0 <;> simp [h0, hw0, hk] <;> split <;> simp [hk]
  · simp [h0, hk] ; split <;> simp [hk]

theorem runCalls_counters (st : Store) (t : String) (l w : Int) (e : String)
    (hav : st.available = true) (hw : 0 < w)
    (hfresh : st.counters (rateLimitKey t e) = none) :
    ∀ n, (runCalls st t l w e n).available = true ∧
      (runCalls st t l w e n).counters (rateLimitKey t e)
        = if n = 0 then none else some n := by
  intro n
  induction n with
  | zero => simpa [runCalls] using ⟨hav, hfresh⟩
  | succ m ih =>
    refine ⟨by simpa [runCalls] using rl_available _ t l w e ih.1, ?_⟩
    have h := rl_counters_self (runCalls st t l w e m) t l w e ih.1 hw
    simp only [runCalls, h, ih.2]
    cases m <;> simp

theorem nthCall_allowed (st : Store) (t : String) (l w : Int) (e : String)
    (hav : st.available = true) (hw : 0 < w)
    (hfresh : st.counters (rateLimitKey t e) = none)
    (i : Nat) (hi : 1 ≤ i) :
    nthCall st t l w e i = .allowed ↔ (i : Int) ≤ l := by
  obtain ⟨j, rfl⟩ : ∃ j, i = j + 1 := ⟨i - 1, by omega⟩
  have h := runCalls_counters st t l w e hav hw hfresh j
  unfold nthCall
  rw [Nat.add_sub_cancel, rl_outcome _ t l w e h.1, h.2]
  have hgd : ((if j = 0 then none else some j : Option Nat)).getD 0 = j := by
    cases j <;> simp
  rw [hgd]
  by_cases hc : ((j : Int) + 1 > l)
  · rw [if_pos hc]
    constructor
    · intro hctr ; simp at hctr
    · intro hctr ; exfalso ; omega
  · rw [if_neg hc]
    constructor
    · intro _ ; omega
    · intro _ ; rfl

theorem expireKey_available (st : Store) (k : String) :
    (st.expireKey k).available = st.available := rfl

theorem runTrace_inv (tr : List REvent) :
    ∀ (st : Store) (k : String) (acc : Nat),
      st.available = true →
      (∀ ev ∈ tr, eventWF ev = true) →
      st.counters k = (if acc = 0 then none else some acc) →
      (runTrace st tr).available = true ∧
      (runTrace st tr).counters k
        = (if tally acc tr k = 0 then none else some (tally acc tr k)) := by
  induction tr with
  | nil =>
    intro st k acc hav _ hcnt
    exact ⟨hav, by simpa [runTrace, tally] using hcnt⟩
  | cons ev rest ih =>
    intro st k acc hav hwf hcnt
    have hwfev : eventWF ev = true := hwf ev (List.mem_cons_self _ _)
    have hwfrest : ∀ e ∈ rest, eventWF e = true :=
      fun e he => hwf e (List.mem_cons_of_mem _ he)
    have htally : tally acc (ev :: rest) k = tally (tallyStep k acc ev) rest k := rfl
    rw [htally]
    show (runTrace (applyEvent st ev) rest).available = true ∧
      (runTrace (applyEvent st ev) rest).counters k = _
    cases ev with
    | call t l w e =>
      have hw : 0 < w := by simpa [eventWF] using hwfev
      have happ : applyEvent st (REvent.call t l w e)
          = (RedisCache.rate_limit st t l w e).2 := rfl
      by_cases hk : rateLimitKey t e = k
      · subst hk
        have hstep : tallyStep (rateLimitKey t e) acc (REvent.call t l w e) = acc + 1 := by
          simp [tallyStep]
        rw [hstep, happ]
        refine ih _ _ (acc + 1) (rl_available st t l w e hav) hwfrest ?_
        rw [rl_counters_self st t l w e hav hw, hcnt]
        cases acc <;> simp
      · have hstep : tallyStep k acc (REvent.call t l w e) = acc := by
          simp [tallyStep, hk]
        rw [hstep, happ]
        refine ih _ k acc (rl_available st t l w e hav) hwfrest ?_
        rw [rl_counters_other st t l w e hav k (fun h => hk h.symm)]
        exact hcnt
    | expiry k' =>
      have happ : applyEvent st (REvent.expiry k') = st.expireKey k' := rfl
      by_cases hk : k' = k
      · subst hk
        have hstep : tallyStep k' acc (REvent.expiry k') = 0 := by simp [tallyStep]
        rw [hstep, happ]
        refine ih _ _ 0 (by rw [expireKey_available] ; exact hav) hwfrest ?_
        simp [Store.expireKey]
      · have hstep : tallyStep k acc (REvent.expiry k') = acc := by simp [tallyStep, hk]
        rw [hstep, happ]
        refine ih _ k acc (by rw [expireKey_available] ; exact hav) hwfrest ?_
        have hk2 : ¬ k = k' := fun h => hk h.symm
        have : (st.expireKey k').counters k = st.counters k := by
          simp [Store.expireKey, hk2]
        rw [this] ; exact hcnt

theorem ofDigitsRev_natDigitsRev : ∀ n, ofDigitsRev (natDigitsRev n) = n := by
  intro n
  induction n using Nat.strong_induction_on with
  | _ n ih =>
    by_cases h : n = 0
    · subst h ; rw [natDigitsRev] ; simp [ofDigitsRev]
    · rw [natDigitsRev]
      simp only [h, dite_false, ofDigitsRev]
      rw [ih (n / 10) (Nat.div_lt_self (Nat.pos_of_ne_zero h) (by decide))]
      omega

theorem natDigitsRev_lt : ∀ n, ∀ d ∈ natDigitsRev n, d < 10 := by
  intro n
  induction n using Nat.strong_induction_on with
  | _ n ih =>
    intro d hd
    by_cases h : n = 0
    · subst h ; rw [natDigitsRev] at hd ; simp at hd
    · rw [natDigitsRev] at hd
      simp only [h, dite_false, List.mem_cons] at hd
      rcases hd with hd | hd
      · omega
      · exact ih (n / 10) (Nat.div_lt_self (Nat.pos_of_ne_zero h) (by decide)) d hd

theorem digitChar_inj_lt : ∀ a < 10, ∀ b < 10, Nat.digitChar a = Nat.digitChar b → a = b := by
  decide

theorem digitChar_bounds : ∀ d < 10, 48 ≤ (Nat.digitChar d).toNat ∧ (Nat.digitChar d).toNat ≤ 57 := by
  decide

theorem map_digitChar_inj :
    ∀ (l1 l2 : List Nat), (∀ d ∈ l1, d < 10) → (∀ d ∈ l2, d < 10) →
      l1.map Nat.digitChar = l2.map Nat.digitChar → l1 = l2 := by
  intro l1
  induction l1 with
  | nil => intro l2 _ _ h ; cases l2 <;> simp_all
  | cons x xs ih =>
    intro l2 h1 h2 h
    cases l2 with
    | nil => simp at h
    | cons y ys =>
      simp only [List.map_cons, List.cons.injEq] at h
      have hx : x = y := digitChar_inj_lt x (h1 x (List.mem_cons_self _ _))
        y (h2 y (List.mem_cons_self _ _)) h.1
      have hxs := ih ys (fun d hd => h1 d (List.mem_cons_of_mem _ hd))
        (fun d hd => h2 d (List.mem_cons_of_mem _ hd)) h.2
      rw [hx, hxs]

theorem pyNatStr_chars : ∀ n, ∀ c ∈ (pyNatStr n).data, 48 ≤ c.toNat ∧ c.toNat ≤ 57 := by
  intro n c hc
  by_cases h : n = 0
  · subst h
    have h0 : (pyNatStr 0).data = ['0'] := rfl
    rw [h0] at hc
    simp only [List.mem_singleton] at hc
    subst hc ; decide
  · simp only [pyNatStr, h, if_false] at hc
    rw [List.mem_map] at hc
    obtain ⟨d, hd, rfl⟩ := hc
    exact digitChar_bounds d (natDigitsRev_lt n d (List.mem_reverse.mp hd))

theorem pyNatStr_ne_zero_str : ∀ b, b ≠ 0 → pyNatStr b ≠ "0" := by
  intro b hb h
  have hd : (natDigitsRev b).reverse.map Nat.digitChar = ['0'] := by
    have hk : (pyNatStr b).data = (natDigitsRev b).reverse.map Nat.digitChar := by
      simp [pyNatStr, hb]
    rw [← hk, h]
  cases hrev : (natDigitsRev b).reverse with
  | nil => rw [hrev] at hd ; simp at hd
  | cons d rest =>
    rw [hrev] at hd
    simp only [List.map_cons, List.cons.injEq] at hd
    have hrest : rest = [] := List.map_eq_nil_iff.mp hd.2
    have hdlt : d < 10 := natDigitsRev_lt b d
      (List.mem_reverse.mp (by rw [hrev] ; exact List.mem_cons_self _ _))
    have hd0 : d = 0 := digitChar_inj_lt d hdlt 0 (by decide) (by rw [hd.1] ; decide)
    have hdig : natDigitsRev b = [0] := by
      have h2 : (natDigitsRev b).reverse = [0] := by rw [hrev, hrest, hd0]
      have h3 := congrArg List.reverse h2
      simpa using h3
    have hval := ofDigitsRev_natDigitsRev b
    rw [hdig] at hval
    simp [ofDigitsRev] at hval
    exact hb hval.symm

theorem pyNatStr_inj : ∀ a b, pyNatStr a = pyNatStr b → a = b := by
  intro a b h
  by_cases ha : a = 0 <;> by_cases hb : b = 0
  · rw [ha, hb]
  · exact absurd (by rw [← h, ha] ; simp [pyNatStr]) (pyNatStr_ne_zero_str b hb)
  · exact absurd (by rw [h, hb] ; simp [pyNatStr]) (pyNatStr_ne_zero_str a ha)
  · have hdata : (natDigitsRev a).reverse.map Nat.digitChar
        = (natDigitsRev b).reverse.map Nat.digitChar := by
      have hka : (pyNatStr a).data = (natDigitsRev a).reverse.map Nat.digitChar := by
        simp [pyNatStr, ha]
      have hkb : (pyNatStr b).data = (natDigitsRev b).reverse.map Nat.digitChar := by
        simp [pyNatStr, hb]
      rw [← hka, ← hkb, h]
    have hlists := map_digitChar_inj _ _
      (fun d hd => natDigitsRev_lt a d (List.mem_reverse.mp hd))
      (fun d hd => natDigitsRev_lt b d (List.mem_reverse.mp hd)) hdata
    have hrev := List.reverse_injective hlists
    rw [← ofDigitsRev_natDigitsRev a, ← ofDigitsRev_natDigitsRev b, hrev]

theorem pyIntStr_data_neg (i : Int) (h : i < 0) :
    (pyIntStr i).data = '-' :: (pyNatStr i.natAbs).data := by
  simp only [pyIntStr, if_pos h]
  rw [String.data_append]
  rfl

theorem pyIntStr_data_nonneg (i : Int) (h : ¬ i < 0) :
    (pyIntStr i).data = (pyNatStr i.toNat).data := by
  simp only [pyIntStr, if_neg h]

theorem pyIntStr_inj : ∀ a b : Int, pyIntStr a = pyIntStr b → a = b := by
  intro a b h
  have hd := congrArg String.data h
  by_cases ha : a < 0 <;> by_cases hb : b < 0
  · rw [pyIntStr_data_neg a ha, pyIntStr_data_neg b hb] at hd
    simp only [List.cons.injEq, true_and] at hd
    have := pyNatStr_inj _ _ (String.ext hd)
    omega
  · exfalso
    rw [pyIntStr_data_neg a ha, pyIntStr_data_nonneg b hb] at hd
    have hmem : '-' ∈ (pyNatStr b.toNat).data := by
      rw [← hd] ; exact List.mem_cons_self _ _
    have := pyNatStr_chars b.toNat '-' hmem
    revert this ; decide
  · exfalso
    rw [pyIntStr_data_nonneg a ha, pyIntStr_data_neg b hb] at hd
    have hmem : '-' ∈ (pyNatStr a.toNat).data := by
      rw [hd] ; exact List.mem_cons_self _ _
    have := pyNatStr_chars a.toNat '-' hmem
    revert this ; decide
  · rw [pyIntStr_data_nonneg a ha, pyIntStr_data_nonneg b hb] at hd
    have := pyNatStr_inj _ _ (String.ext hd)
    omega

theorem underscore_not_mem_pyIntStr (i : Int) : '_' ∉ (pyIntStr i).data := by
  intro hmem
  by_cases h : i < 0
  · rw [pyIntStr_data_neg i h] at hmem
    rcases List.mem_cons.mp hmem with h1 | h1
    · exact absurd h1 (by decide)
    · have := pyNatStr_chars i.natAbs '_' h1
      revert this ; decide
  · rw [pyIntStr_data_nonneg i h] at hmem
    have := pyNatStr_chars i.toNat '_' hmem
    revert this ; decide

theorem pyNatStr_ne_all (n : Nat) : pyNatStr n ≠ "all" := by
  intro h
  have hmem : 'a' ∈ (pyNatStr n).data := by
    rw [h] ; decide
  have := pyNatStr_chars n 'a' hmem
  revert this ; decide

theorem pyNatStr_ne_start (n : Nat) : pyNatStr n ≠ "start" := by
  intro h
  have hmem : 's' ∈ (pyNatStr n).data := by
    rw [h] ; decide
  have := pyNatStr_chars n 's' hmem
  revert this ; decide

theorem sepSplit (sep : Char) :
    ∀ (a c b d : List Char), sep ∉ a → sep ∉ c →
      a ++ sep :: b = c ++ sep :: d → a = c ∧ b = d := by
  intro a
  induction a with
  | nil =>
    intro c b d _ hc h
    cases c with
    | nil => exact ⟨rfl, by simpa using h⟩
    | cons y ys =>
      exfalso
      simp only [List.nil_append, List.cons_append, List.cons.injEq] at h
      exact hc (by rw [← h.1] ; exact List.mem_cons_self _ _)
  | cons x xs ih =>
    intro c b d ha hc h
    cases c with
    | nil =>
      exfalso
      simp only [List.nil_append, List.cons_append, List.cons.injEq] at h
      exact ha (by rw [h.1] ; exact List.mem_cons_self _ _)
    | cons y ys =>
      simp only [List.cons_append, List.cons.injEq] at h
      have ha' : sep ∉ xs := fun hm => ha (List.mem_cons_of_mem _ hm)
      have hc' : sep ∉ ys := fun hm => hc (List.mem_cons_of_mem _ hm)
      obtain ⟨e1, e2⟩ := ih ys b d ha' hc' h.2
      exact ⟨by rw [h.1, e1], e2⟩

theorem rateLimitKey_data (t e : String) :
    (rateLimitKey t e).data = "rate_limit:".data ++ (t.data ++ ':' :: e.data) := by
  have hc : (":" : String).data = [':'] := rfl
  simp [rateLimitKey, String.data_append, hc, List.append_assoc]

theorem rateLimitKey_inj (t1 e1 t2 e2 : String)
    (h1 : ':' ∉ t1.data) (h2 : ':' ∉ t2.data)
    (heq : rateLimitKey t1 e1 = rateLimitKey t2 e2) : t1 = t2 ∧ e1 = e2 := by
  have hd := congrArg String.data heq
  rw [rateLimitKey_data, rateLimitKey_data] at hd
  have hd2 := List.append_cancel_left hd
  obtain ⟨ht, he⟩ := sepSplit ':' _ _ _ _ h1 h2 hd2
  exact ⟨String.ext ht, String.ext he⟩

theorem pyOrStr_make_nounder (m : Option String) (hm : goodMake m) :
    '_' ∉ (pyOrStr m "all").data := by
  cases m with
  | none => decide
  | some s =>
    simp only [pyOrStr, if_neg hm.1]
    exact hm.2.2

theorem pyOrStr_cursor_nounder (c : Option String) (hc : goodCursor c) :
    '_' ∉ (pyOrStr c "start").data := by
  cases c with
  | none => decide
  | some s =>
    simp only [pyOrStr, if_neg hc.1]
    exact hc.2.2

theorem pyOrIntStr_year_nounder (y : Option Int) (hy : goodYear y) :
    '_' ∉ (pyOrIntStr y "all").data := by
  cases y with
  | none => decide
  | some v =>
    have hv : (0 : Int) < v := hy
    simp only [pyOrIntStr, if_neg (by omega : ¬ v = 0)]
    exact underscore_not_mem_pyIntStr v

theorem pyOrStr_make_inj (m1 m2 : Option String) (h1 : goodMake m1) (h2 : goodMake m2)
    (h : pyOrStr m1 "all" = pyOrStr m2 "all") : m1 = m2 := by
  cases m1 with
  | none =>
    cases m2 with
    | none => rfl
    | some s =>
      simp only [pyOrStr, if_neg h2.1] at h
      exact absurd h.symm h2.2.1
  | some s =>
    cases m2 with
    | none =>
      simp only [pyOrStr, if_neg h1.1] at h
      exact absurd h h1.2.1
    | some s' =>
      simp only [pyOrStr, if_neg h1.1, if_neg h2.1] at h
      rw [h]

theorem pyOrStr_cursor_inj (c1 c2 : Option String) (h1 : goodCursor c1) (h2 : goodCursor c2)
    (h : pyOrStr c1 "start" = pyOrStr c2 "start") : c1 = c2 := by
  cases c1 with
  | none =>
    cases c2 with
    | none => rfl
    | some s =>
      simp only [pyOrStr, if_neg h2.1] at h
      exact absurd h.symm h2.2.1
  | some s =>
    cases c2 with
    | none =>
      simp only [pyOrStr, if_neg h1.1] at h
      exact absurd h h1.2.1
    | some s' =>
      simp only [pyOrStr, if_neg h1.1, if_neg h2.1] at h
      rw [h]

theorem pyIntStr_pos_eq (v : Int) (hv : 0 < v) : pyIntStr v = pyNatStr v.toNat := by
  simp only [pyIntStr, if_neg (by omega : ¬ v < 0)]

theorem pyOrIntStr_year_inj (y1 y2 : Option Int) (h1 : goodYear y1) (h2 : goodYear y2)
    (h : pyOrIntStr y1 "all" = pyOrIntStr y2 "all") : y1 = y2 := by
  cases y1 with
  | none =>
    cases y2 with
    | none => rfl
    | some v =>
      have hv : (0 : Int) < v := h2
      simp only [pyOrIntStr, if_neg (by omega : ¬ v = 0)] at h
      rw [pyIntStr_pos_eq v hv] at h
      exact absurd h.symm (pyNatStr_ne_all _)
  | some v =>
    cases y2 with
    | none =>
      have hv : (0 : Int) < v := h1
      simp only [pyOrIntStr, if_neg (by omega : ¬ v = 0)] at h
      rw [pyIntStr_pos_eq v hv] at h
      exact absurd h (pyNatStr_ne_all _)
    | some v' =>
      have hv : (0 : Int) < v := h1
      have hv' : (0 : Int) < v' := h2
      simp only [pyOrIntStr, if_neg (by omega : ¬ v = 0), if_neg (by omega : ¬ v' = 0)] at h
      rw [pyIntStr_inj v v' h]

theorem veKey_data (m : Option String) (y : Option Int) (c : Option String) (l : Int) :
    (vehicleEmissionsCacheKey m y c l).data
      = "vehicle_emissions_".data ++ ((pyOrStr m "all").data ++ '_' ::
          ((pyOrIntStr y "all").data ++ '_' ::
            ((pyOrStr c "start").data ++ '_' :: (pyIntStr l).data))) := by
  have hu : ("_" : String).data = ['_'] := rfl
  simp [vehicleEmissionsCacheKey, String.data_append, hu, List.append_assoc]

theorem veKey_inj (m1 m2 : Option String) (y1 y2 : Option Int) (c1 c2 : Option String)
    (l1 l2 : Int)
    (hm1 : goodMake m1) (hm2 : goodMake m2) (hy1 : goodYear y1) (hy2 : goodYear y2)
    (hc1 : goodCursor c1) (hc2 : goodCursor c2)
    (heq : vehicleEmissionsCacheKey m1 y1 c1 l1 = vehicleEmissionsCacheKey m2 y2 c2 l2) :
    m1 = m2 ∧ y1 = y2 ∧ c1 = c2 ∧ l1 = l2 := by
  have hd := congrArg String.data heq
  rw [veKey_data, veKey_data] at hd
  have hd2 := List.append_cancel_left hd
  obtain ⟨hM, hrest1⟩ := sepSplit '_' _ _ _ _
    (pyOrStr_make_nounder m1 hm1) (pyOrStr_make_nounder m2 hm2) hd2
  obtain ⟨hY, hrest2⟩ := sepSplit '_' _ _ _ _
    (pyOrIntStr_year_nounder y1 hy1) (pyOrIntStr_year_nounder y2 hy2) hrest1
  obtain ⟨hC, hL⟩ := sepSplit '_' _ _ _ _
    (pyOrStr_cursor_nounder c1 hc1) (pyOrStr_cursor_nounder c2 hc2) hrest2
  exact ⟨pyOrStr_make_inj m1 m2 hm1 hm2 (String.ext hM),
    pyOrIntStr_year_inj y1 y2 hy1 hy2 (String.ext hY),
    pyOrStr_cursor_inj c1 c2 hc1 hc2 (String.ext hC),
    pyIntStr_inj l1 l2 (String.ext hL)⟩

mutual

theorem toJson_serialize : ∀ v : PyVal,
    ∃ j, toJson (serialize_data v) = some j ∧ ofJson j = serialize_data v
  | .vStr s => ⟨.jStr s, rfl, rfl⟩
  | .vInt n => ⟨.jInt n, rfl, rfl⟩
  | .vFloat q => ⟨.jFloat q, rfl, rfl⟩
  | .vBool b => ⟨.jBool b, rfl, rfl⟩
  | .vNone => ⟨.jNull, rfl, rfl⟩
  | .vUUID u => ⟨.jStr (uuidStr u), rfl, rfl⟩
  | .vList l => by
    obtain ⟨js, h1, h2⟩ := toJsonList_serialize l
    exact ⟨.jArr js, by simp only [serialize_data, toJson, h1], by
      simp only [ofJson, h2, serialize_data]⟩
  | .vDict d => by
    obtain ⟨js, h1, h2⟩ := toJsonDict_serialize d
    exact ⟨.jObj js, by simp only [serialize_data, toJson, h1], by
      simp only [ofJson, h2, serialize_data]⟩

theorem toJsonList_serialize : ∀ l : PyList,
    ∃ js, toJsonList (serializeList l) = some js ∧ ofJsonArr js = serializeList l
  | .nil => ⟨.nil, rfl, rfl⟩
  | .cons x xs => by
    obtain ⟨j, h1, h2⟩ := toJson_serialize x
    obtain ⟨js, h3, h4⟩ := toJsonList_serialize xs
    exact ⟨.cons j js, by simp only [serializeList, toJsonList, h1, h3], by
      simp only [ofJsonArr, h2, h4, serializeList]⟩

theorem toJsonDict_serialize : ∀ d : PyDict,
    ∃ js, toJsonDict (serializeDict d) = some js ∧ ofJsonObj js = serializeDict d
  | .nil => ⟨.nil, rfl, rfl⟩
  | .cons k v xs => by
    obtain ⟨j, h1, h2⟩ := toJson_serialize v
    obtain ⟨js, h3, h4⟩ := toJsonDict_serialize xs
    exact ⟨.cons k j js, by simp only [serializeDict, toJsonDict, h1, h3], by
      simp only [ofJsonObj, h2, h4, serializeDict]⟩

end

mutual

theorem serialize_noUUID : ∀ v : PyVal, PyVal.noUUID v = true → serialize_data v = v
  | .vStr _, _ => rfl
  | .vInt _, _ => rfl
  | .vFloat _, _ => rfl
  | .vBool _, _ => rfl
  | .vNone, _ => rfl
  | .vList l, h => by
    simp only [PyVal.noUUID] at h
    simp only [serialize_data, serializeList_noUUID l h]
  | .vDict d, h => by
    simp only [PyVal.noUUID] at h
    simp only [serialize_data, serializeDict_noUUID d h]

theorem serializeList_noUUID : ∀ l : PyList, PyList.noUUID l = true → serializeList l = l
  | .nil, _ => rfl
  | .cons x xs, h => by
    simp only [PyList.noUUID, Bool.and_eq_true] at h
    simp only [serializeList, serialize_noUUID x h.1, serializeList_noUUID xs h.2]

theorem serializeDict_noUUID : ∀ d : PyDict, PyDict.noUUID d = true → serializeDict d = d
  | .nil, _ => rfl
  | .cons k v xs, h => by
    simp only [PyDict.noUUID, Bool.and_eq_true] at h
    simp only [serializeDict, serialize_noUUID v h.1, serializeDict_noUUID xs h.2]

end

theorem cacheRoundtrip_eq (st : CacheStore) (k : String) (v : PyVal)
    (hav : st.available = true) :
    cacheRoundtrip st k v = .ok (some (serialize_data v)) := by
  obtain ⟨j, h1, h2⟩ := toJson_serialize v
  unfold cacheRoundtrip RedisCache.set RedisCache.get
  simp [hav, h1, h2]

theorem nthCall_rejected (st : Store) (t : String) (l w : Int) (e : String)
    (hav : st.available = true) (hw : 0 < w)
    (hfresh : st.counters (rateLimitKey t e) = none)
    (i : Nat) (hi : 1 ≤ i) :
    nthCall st t l w e i = .rejected ⟨429, rateLimitDetail⟩ ↔ ¬ ((i : Int) ≤ l) := by
  obtain ⟨j, rfl⟩ : ∃ j, i = j + 1 := ⟨i - 1, by omega⟩
  have h := runCalls_counters st t l w e hav hw hfresh j
  unfold nthCall
  rw [Nat.add_sub_cancel, rl_outcome _ t l w e h.1, h.2]
  have hgd : ((if j = 0 then none else some j : Option Nat)).getD 0 = j := by
    cases j <;> simp
  rw [hgd]
  by_cases hc : ((j : Int) + 1 > l)
  · rw [if_pos hc]
    constructor
    · intro _ ; omega
    · intro _ ; rfl
  · rw [if_neg hc]
    constructor
    · intro hctr ; simp at hctr
    · intro hctr ; exfalso ; omega

/-!
The claims.
-/

/-- Claim C1: for every `limit ≥ 1`, `window > 0`, identity and
endpoint, starting from no prior counter state, in any store-serialized
sequence of `N` calls to `rate_limit` with that same (identity,
endpoint), the `i`-th call admits if and only if `i ≤ limit`, and
otherwise is rejected with the fixed 429 error: exactly the first
`limit` calls admit and calls `limit+1..N` reject. -/
theorem claim1_first_limit_calls_admit (st : Store) (token endpoint : String)
    (limit window : Int) (N i : Nat)
    (hav : st.available = true)
    (hfresh : st.counters (rateLimitKey token endpoint) = none)
    (hl : 1 ≤ limit) (hw : 0 < window) (hi : 1 ≤ i) (hN : i ≤ N) :
    (nthCall st token limit window endpoint i = .allowed ↔ (i : Int) ≤ limit) ∧
    (nthCall st token limit window endpoint i = .rejected ⟨429, rateLimitDetail⟩
      ↔ ¬ ((i : Int) ≤ limit)) :=
  ⟨nthCall_allowed st token limit window endpoint hav hw hfresh i hi,
   nthCall_rejected st token limit window endpoint hav hw hfresh i hi⟩

/-- Witness for C1: with limit 3 and window 60 on a fresh store, the
2nd of 5 calls admits. -/
theorem claim1_witness :
    Store.empty.available = true ∧
    Store.empty.counters (rateLimitKey "u1" "vehicle_emissions") = none ∧
    (1 : Int) ≤ 3 ∧ (0 : Int) < 60 ∧ 1 ≤ 2 ∧ 2 ≤ 5 ∧
    ((nthCall Store.empty "u1" 3 60 "vehicle_emissions" 2 = .allowed
        ↔ ((2 : Nat) : Int) ≤ 3) ∧
      (nthCall Store.empty "u1" 3 60 "vehicle_emissions" 2 = .rejected ⟨429, rateLimitDetail⟩
        ↔ ¬ ((2 : Nat) : Int) ≤ 3)) :=
  ⟨rfl, rfl, by decide, by decide, by decide, by decide,
    claim1_first_limit_calls_admit Store.empty "u1" "vehicle_emissions" 3 60 5 2
      rfl rfl (by decide) (by decide) (by decide) (by decide)⟩

/-- Claim C2: on an available store, `rate_limit` raises the 429
`HTTPException` with the fixed message exactly when the post-increment
counter value strictly exceeds `limit`, and returns normally (admits)
exactly otherwise. -/
theorem claim2_reject_iff_over_limit (st : Store) (token endpoint : String)
    (limit window : Int) (hav : st.available = true) :
    ((RedisCache.rate_limit st token limit window endpoint).1
        = .rejected ⟨429, rateLimitDetail⟩
      ↔ ((st.counters (rateLimitKey token endpoint)).getD 0 + 1 : Int) > limit) ∧
    ((RedisCache.rate_limit st token limit window endpoint).1 = .allowed
      ↔ ¬ ((st.counters (rateLimitKey token endpoint)).getD 0 + 1 : Int) > limit) := by
  rw [rl_outcome st token limit window endpoint hav]
  by_cases hc : ((st.counters (rateLimitKey token endpoint)).getD 0 + 1 : Int) > limit
  · rw [if_pos hc]
    exact ⟨⟨fun _ => hc, fun _ => rfl⟩,
      ⟨fun h => by simp at h, fun h => absurd hc h⟩⟩
  · rw [if_neg hc]
    exact ⟨⟨fun h => by simp at h, fun h => absurd h hc⟩,
      ⟨fun _ => hc, fun _ => rfl⟩⟩

/-- Witness for C2: on the empty store with limit 3, the first call's
post-increment value 1 does not exceed 3 and the call admits. -/
theorem claim2_witness :
    Store.empty.available = true ∧
    (((RedisCache.rate_limit Store.empty "u" 3 60 "e").1
        = .rejected ⟨429, rateLimitDetail⟩
      ↔ ((Store.empty.counters (rateLimitKey "u" "e")).getD 0 + 1 : Int) > 3) ∧
    ((RedisCache.rate_limit Store.empty "u" 3 60 "e").1 = .allowed
      ↔ ¬ ((Store.empty.counters (rateLimitKey "u" "e")).getD 0 + 1 : Int) > 3)) :=
  ⟨rfl, claim2_reject_iff_over_limit Store.empty "u" "e" 3 60 rfl⟩

/-- Claim C3: every `rate_limit` call on an available store, admitted
or rejected, leaves the counter for its (identity, endpoint) at its
previous value plus one; in particular a rejection performs no
decrement or rollback. -/
theorem claim3_every_call_increments (st : Store) (token endpoint : String)
    (limit window : Int) (hav : st.available = true) (hw : 0 < window) :
    (RedisCache.rate_limit st token limit window endpoint).2.counters
        (rateLimitKey token endpoint)
      = some ((st.counters (rateLimitKey token endpoint)).getD 0 + 1) :=
  rl_counters_self st token limit window endpoint hav hw

/-- Witness for C3: a rejected call (limit 0) still increments the
counter from absent to 1. -/
theorem claim3_witness :
    Store.empty.available = true ∧ (0 : Int) < 60 ∧
    (RedisCache.rate_limit Store.empty "u" 0 60 "e").2.counters (rateLimitKey "u" "e")
      = some ((Store.empty.counters (rateLimitKey "u" "e")).getD 0 + 1) :=
  ⟨rfl, by decide, claim3_every_call_increments Store.empty "u" "e" 0 60 rfl (by decide)⟩

/-- Claim C4: in every state reachable from the empty store by a
history of `rate_limit` calls and key expiries (expiry modelled as key
deletion), the counter of each key exists exactly when a call for it
happened since its last expiry, and then equals the number of calls for
that (identity, endpoint) since the counter's creation; as a `Nat` it
is never negative, and the tally only resets at an expiry. -/
theorem claim4_counter_trace_invariant (tr : List REvent) (k : String)
    (hwf : ∀ ev ∈ tr, eventWF ev = true) :
    (runTrace Store.empty tr).counters k
      = if tally 0 tr k = 0 then none else some (tally 0 tr k) :=
  (runTrace_inv tr Store.empty k 0 rfl hwf (by simp [Store.empty])).2

/-- Witness for C4: after two calls, an expiry and one more call, the
counter holds 1, the number of calls since its re-creation. -/
theorem claim4_witness :
    (∀ ev ∈ ([.call "u" 5 60 "e", .call "u" 5 60 "e",
        .expiry (rateLimitKey "u" "e"), .call "u" 5 60 "e"] : List REvent),
      eventWF ev = true) ∧
    (runTrace Store.empty [.call "u" 5 60 "e", .call "u" 5 60 "e",
        .expiry (rateLimitKey "u" "e"), .call "u" 5 60 "e"]).counters (rateLimitKey "u" "e")
      = if tally 0 [.call "u" 5 60 "e", .call "u" 5 60 "e",
            .expiry (rateLimitKey "u" "e"), .call "u" 5 60 "e"] (rateLimitKey "u" "e") = 0
        then none
        else some (tally 0 [.call "u" 5 60 "e", .call "u" 5 60 "e",
            .expiry (rateLimitKey "u" "e"), .call "u" 5 60 "e"] (rateLimitKey "u" "e")) :=
  ⟨by decide, claim4_counter_trace_invariant _ _ (by decide)⟩

/-- Counterexample to C5 as stated: the identities `"a:b"` and `"a"`
differ, yet with endpoints `"c"` and `"b:c"` both calls derive the same
counter key `rate_limit:a:b:c`, so the derivation is not injective over
all identities. -/
theorem claim5_cex :
    rateLimitKey "a:b" "c" = rateLimitKey "a" "b:c" ∧ ("a:b" : String) ≠ "a" :=
  ⟨rfl, by decide⟩

/-- Claim C5 (amended): each counter key has the format
`rate_limit:<identity>:<endpoint>`, and the derivation is injective on
(identity, endpoint) provided the identities contain no colon;
identities containing a colon can collide with other pairs. -/
theorem claim5_key_injective_no_colon (t1 e1 t2 e2 : String)
    (h1 : ':' ∉ t1.data) (h2 : ':' ∉ t2.data)
    (heq : rateLimitKey t1 e1 = rateLimitKey t2 e2) :
    (t1 = t2 ∧ e1 = e2) ∧
    rateLimitKey t1 e1 = "rate_limit:" ++ t1 ++ ":" ++ e1 :=
  ⟨rateLimitKey_inj t1 e1 t2 e2 h1 h2 heq, rfl⟩

/-- Witness for C5: colon-free identity `u1`. -/
theorem claim5_witness :
    ':' ∉ ("u1" : String).data ∧
    ((("u1" : String) = "u1" ∧ ("vehicle_emissions" : String) = "vehicle_emissions") ∧
      rateLimitKey "u1" "vehicle_emissions"
        = "rate_limit:" ++ "u1" ++ ":" ++ "vehicle_emissions") :=
  ⟨by decide,
    claim5_key_injective_no_colon "u1" "vehicle_emissions" "u1" "vehicle_emissions"
      (by decide) (by decide) rfl⟩

/-- Counterexample to C6 as stated: with the store unreachable, the
failed increment inside `rate_limit` is not caught and the call does
not admit (no fail-open); the store error propagates to the caller. -/
theorem claim6_cex :
    (RedisCache.rate_limit downStore "user" 5 60 "vehicle_emissions").1
        ≠ RLOutcome.allowed ∧
    (RedisCache.rate_limit downStore "user" 5 60 "vehicle_emissions").1
        = RLOutcome.storeError ∧
    RedisCache.get downCache "vehicle_makes" = .error .connError ∧
    RedisCache.set downCache "vehicle_makes" (.vInt 3) = .error .connError :=
  ⟨by decide, rfl, rfl, rfl⟩

/-- Claim C6 (amended): store failures inside `rate_limit` and the
cache `get`/`set` are not caught at the component boundary and
propagate to the caller (neither fail-open admission nor fail-as-miss
is implemented); when the store is available, the only error
`rate_limit` raises is the deliberate rate-limit rejection. -/
theorem claim6_store_errors_propagate :
    (∀ (st : Store) (t : String) (l w : Int) (e : String), st.available = false →
      (RedisCache.rate_limit st t l w e).1 = .storeError) ∧
    (∀ (st : Store) (t : String) (l w : Int) (e : String), st.available = true →
      (RedisCache.rate_limit st t l w e).1 ≠ .storeError) ∧
    (∀ (st : CacheStore) (k : String), st.available = false →
      RedisCache.get st k = .error .connError) ∧
    (∀ (st : CacheStore) (k : String) (v : PyVal), st.available = false →
      RedisCache.set st k v = .error .connError) := by
  refine ⟨?_, ?_, ?_, ?_⟩
  · intro st t l w e hun
    unfold RedisCache.rate_limit Store.incr
    simp [hun]
  · intro st t l w e hav
    rw [rl_outcome st t l w e hav]
    split <;> simp
  · intro st k hun
    unfold RedisCache.get
    simp [hun]
  · intro st k v hun
    unfold RedisCache.set
    simp [hun]

/-- Witness for C6 (amended): a down store propagates, an available one
never yields a store error, and a down cache raises on `get` and on
`set`. -/
theorem claim6_witness :
    downStore.available = false ∧
    (RedisCache.rate_limit downStore "u" 5 60 "e").1 = .storeError ∧
    Store.empty.available = true ∧
    (RedisCache.rate_limit Store.empty "u" 5 60 "e").1 ≠ .storeError ∧
    downCache.available = false ∧
    RedisCache.get downCache "k" = .error .connError ∧
    RedisCache.set downCache "k" (.vInt 3) = .error .connError :=
  ⟨rfl, claim6_store_errors_propagate.1 downStore "u" 5 60 "e" rfl, rfl,
    claim6_store_errors_propagate.2.1 Store.empty "u" 5 60 "e" rfl, rfl,
    claim6_store_errors_propagate.2.2.1 downCache "k" rfl,
    claim6_store_errors_propagate.2.2.2 downCache "k" (.vInt 3) rfl⟩

/-- Counterexample to C7 as stated: a UUID value is stored as its
string form, so `set` then `get` returns the string, which is not
deep-equal to the original UUID value. -/
theorem claim7_cex :
    cacheRoundtrip CacheStore.empty "emissions" (.vUUID 0)
        = .ok (some (.vStr "00000000-0000-0000-0000-000000000000")) ∧
    PyVal.vStr "00000000-0000-0000-0000-000000000000" ≠ PyVal.vUUID 0 :=
  ⟨rfl, fun h => PyVal.noConfusion h⟩

/-- Claim C7 (amended): on an available store, `set(k, v)` followed
immediately by `get(k)` returns `serialize_data v` — a value deep-equal
to `v` whenever `v` contains no UUID field, while UUID fields come back
as their canonical string form. -/
theorem claim7_roundtrip_returns_serialized (st : CacheStore) (k : String) (v : PyVal)
    (hav : st.available = true) :
    cacheRoundtrip st k v = .ok (some (serialize_data v)) ∧
    (PyVal.noUUID v = true → serialize_data v = v) :=
  ⟨cacheRoundtrip_eq st k v hav, serialize_noUUID v⟩

/-- Witness for C7 (amended): a list of integers round-trips. -/
theorem claim7_witness :
    CacheStore.empty.available = true ∧
    (cacheRoundtrip CacheStore.empty "vehicle_makes" (.vList (.cons (.vInt 3) .nil))
        = .ok (some (serialize_data (.vList (.cons (.vInt 3) .nil)))) ∧
      (PyVal.noUUID (.vList (.cons (.vInt 3) .nil)) = true →
        serialize_data (.vList (.cons (.vInt 3) .nil)) = .vList (.cons (.vInt 3) .nil))) :=
  ⟨rfl, claim7_roundtrip_returns_serialized CacheStore.empty "vehicle_makes"
    (.vList (.cons (.vInt 3) .nil)) rfl⟩

/-- Claim C8: on an available store with `window > 0`, `rate_limit`
sets the key's TTL to `window` exactly when the increment returned 1
(the counter had no prior value), leaves the key's TTL unchanged on
every later increment within the window, and never touches the TTL of
any other key. -/
theorem claim8_ttl_set_only_on_creation (st : Store) (token endpoint : String)
    (limit window : Int) (hav : st.available = true) (hw : 0 < window) :
    ((st.counters (rateLimitKey token endpoint)).getD 0 = 0 →
      (RedisCache.rate_limit st token limit window endpoint).2.ttl
          (rateLimitKey token endpoint) = some window) ∧
    ((st.counters (rateLimitKey token endpoint)).getD 0 ≠ 0 →
      (RedisCache.rate_limit st token limit window endpoint).2.ttl
          (rateLimitKey token endpoint) = st.ttl (rateLimitKey token endpoint)) ∧
    (∀ k, k ≠ rateLimitKey token endpoint →
      (RedisCache.rate_limit st token limit window endpoint).2.ttl k = st.ttl k) := by
  refine ⟨?_, ?_, fun k hk => rl_ttl_other st token limit window endpoint hav k hk⟩
  · intro h0
    rw [rl_ttl_self st token limit window endpoint hav hw, if_pos h0]
  · intro h0
    rw [rl_ttl_self st token limit window endpoint hav hw, if_neg h0]

/-- Witness for C8: on the empty store the first increment sets the TTL
to the window. -/
theorem claim8_witness :
    Store.empty.available = true ∧ (0 : Int) < 60 ∧
    (((Store.empty.counters (rateLimitKey "u" "e")).getD 0 = 0 →
      (RedisCache.rate_limit Store.empty "u" 3 60 "e").2.ttl (rateLimitKey "u" "e")
        = some 60) ∧
    ((Store.empty.counters (rateLimitKey "u" "e")).getD 0 ≠ 0 →
      (RedisCache.rate_limit Store.empty "u" 3 60 "e").2.ttl (rateLimitKey "u" "e")
        = Store.empty.ttl (rateLimitKey "u" "e")) ∧
    (∀ k, k ≠ rateLimitKey "u" "e" →
      (RedisCache.rate_limit Store.empty "u" 3 60 "e").2.ttl k = Store.empty.ttl k)) :=
  ⟨rfl, by decide, claim8_ttl_set_only_on_creation Store.empty "u" "e" 3 60 rfl (by decide)⟩

/-- Counterexample to C9 as stated: the distinct query tuples
(make `"all"`, no year, no cursor, limit 10) and (no make, no year, no
cursor, limit 10) derive the same cache key, so the derivation is not
injective on the full query-parameter tuple. -/
theorem claim9_cex :
    vehicleEmissionsCacheKey (some "all") none none 10
        = vehicleEmissionsCacheKey none none none 10 ∧
    (some "all" : Option String) ≠ none :=
  ⟨rfl, by decide⟩

/-- Claim C9 (amended): the cache key is deterministic in the query
tuple, substitutes the sentinels `all`/`start` for absent filters, and
is injective on tuples whose present make and cursor are non-empty,
differ from their sentinel, and contain no underscore, and whose
present year is positive; outside that range falsy values, sentinel
look-alikes and underscores can collide. -/
theorem claim9_key_injective_good_params (m1 m2 : Option String) (y1 y2 : Option Int)
    (c1 c2 : Option String) (l1 l2 : Int)
    (hm1 : goodMake m1) (hm2 : goodMake m2) (hy1 : goodYear y1) (hy2 : goodYear y2)
    (hc1 : goodCursor c1) (hc2 : goodCursor c2) :
    (vehicleEmissionsCacheKey m1 y1 c1 l1 = vehicleEmissionsCacheKey m2 y2 c2 l2 →
      m1 = m2 ∧ y1 = y2 ∧ c1 = c2 ∧ l1 = l2) ∧
    vehicleEmissionsCacheKey none none none l1
      = "vehicle_emissions_all_all_start_" ++ pyIntStr l1 :=
  ⟨fun heq => veKey_inj m1 m2 y1 y2 c1 c2 l1 l2 hm1 hm2 hy1 hy2 hc1 hc2 heq, rfl⟩

/-- Witness for C9 (amended): a well-behaved tuple. -/
theorem claim9_witness :
    goodMake (some "Ferrari") ∧ goodYear (some 2020) ∧ goodCursor (none : Option String) ∧
    ((vehicleEmissionsCacheKey (some "Ferrari") (some 2020) none 10
        = vehicleEmissionsCacheKey (some "Ferrari") (some 2020) none 10 →
      (some "Ferrari" : Option String) = some "Ferrari" ∧
        (some 2020 : Option Int) = some 2020 ∧
        (none : Option String) = none ∧ (10 : Int) = 10) ∧
     vehicleEmissionsCacheKey none none none 10
       = "vehicle_emissions_all_all_start_" ++ pyIntStr 10) :=
  ⟨⟨by decide, by decide, by decide⟩, (by decide : (0:Int) < 2020), trivial,
    claim9_key_injective_good_params (some "Ferrari") (some "Ferrari") (some 2020)
      (some 2020) none none 10 10
      ⟨by decide, by decide, by decide⟩ ⟨by decide, by decide, by decide⟩
      (by decide : (0:Int) < 2020) (by decide : (0:Int) < 2020) trivial trivial⟩

/-- Claim C10: called with `limit = 0` (violating the spec precondition
`limit ≥ 1`) on an available store, `rate_limit` rejects every call,
including the very first call of a fresh window, because the first
post-increment value 1 already exceeds the limit. -/
theorem claim10_limit_zero_rejects_all (st : Store) (token endpoint : String)
    (window : Int) (hav : st.available = true) :
    (RedisCache.rate_limit st token 0 window endpoint).1
      = .rejected ⟨429, rateLimitDetail⟩ := by
  rw [rl_outcome st token 0 window endpoint hav, if_pos (by omega)]

/-- Witness for C10: the very first call on a fresh store is rejected
when the limit is 0. -/
theorem claim10_witness :
    Store.empty.available = true ∧
    (RedisCache.rate_limit Store.empty "u" 0 60 "e").1
      = .rejected ⟨429, rateLimitDetail⟩ :=
  ⟨rfl, claim10_limit_zero_rejects_all Store.empty "u" "e" 60 rfl⟩
